import Mathlib

/-!
# lazygit-mcp-bridge: the server's message queue and request dispatcher

A shallow embedding of `internal/server/server.go`.

* The package-level variables `messageQueue`, `subscribers` and
  `currentProjectRoot` are the fields of `State`; what is on disk at the path
  `messageFile` is the field `messageFile` (absent, or present and removable
  or not).
* Standard output is the list of JSON-RPC objects printed, one per
  `fmt.Println`.
* A handler returns `none` when the Go code panics (a failed single-value type
  assertion); a panic is not recovered anywhere, so the process ends there.
* Library code is not re-implemented: the hex SHA-256 digest is a parameter
  `digest`, and the outcome of `os.ReadFile` / `json.Unmarshal` is an input
  (`FileRead`, `Unmarshalled`).
* In `step` and `run` each call of `readMessageFile` and each handled request
  is one sequential step. The interleaving of the watcher goroutine with the
  statements of a drain handler is modelled separately (`interleavedDrain`).
-/

namespace LazygitMcp

/-! ## Data model -/

/-- Value held by a Go `interface{}` after `json.Unmarshal` (and the values the
handlers build for `json.Marshal`): nil, bool, float64 (kept as its literal),
string, `[]interface{}`, `map[string]interface{}` (as an association list). -/
inductive Json where
  | null
  | bool (b : Bool)
  | number (lit : String)
  | str (s : String)
  | arr (xs : List Json)
  | obj (kvs : List (String × Json))

/-- Go struct `MCPRequest`. -/
structure MCPRequest where
  JSONRPC : String
  ID : Json
  Method : String
  Params : Json

/-- Go struct `MCPError`. -/
structure MCPError where
  Code : Int
  Message : String

/-- Go struct `MCPResponse`; `Error` is a pointer, nil is `none`. -/
structure MCPResponse where
  JSONRPC : String
  ID : Json
  Result : Json
  Error : Option MCPError

/-- Go struct `MCPNotification`. -/
structure MCPNotification where
  JSONRPC : String
  Method : String
  Params : Json

/-- One line printed on standard output. -/
inductive Line where
  | response (r : MCPResponse)
  | notification (n : MCPNotification)

/-- Go struct `LazygitMessage`. -/
structure LazygitMessage where
  File : String
  Comment : String
  ProjectRoot : String
  Time : String
  Hash : String
  deriving DecidableEq, Repr

/-- The anonymous struct `rawMessage` of `readMessageFile`. -/
structure RawMessage where
  File : String
  Comment : String
  ProjectRoot : String
  Time : String
  deriving DecidableEq, Repr

/-- What is on disk at the path `messageFile`: nothing, or an entry together
with whether `os.Remove` on it succeeds (it fails on an unwritable directory or
a non-empty directory at that path). -/
inductive FileStatus where
  | absent
  | present (removable : Bool)
  deriving DecidableEq, Repr

/-- The package-level variables, with the state of the path `messageFile` on disk. -/
structure State where
  messageQueue : List LazygitMessage
  subscribers : List String
  currentProjectRoot : String
  messageFile : FileStatus
  deriving DecidableEq, Repr

/-- What `os.ReadFile(messageFile)` followed by `json.Unmarshal(data, &rawMessage)`
gave `readMessageFile`. -/
inductive FileRead where
  | readError
  | parseError
  | parsed (rawMessage : RawMessage)

/-- What `json.Unmarshal([]byte(line), &req)` gave `handleMCPRequest`: an error
(with `req` as far as it was filled) or a request. -/
inductive Unmarshalled where
  | err (req : MCPRequest)
  | ok (req : MCPRequest)

/-- Result of a handler: `none` is a panic, otherwise the new state and the
lines printed. -/
abbrev Outcome := Option (State × List Line)

/-! ## Go library helpers -/

/-- Go `strings.Join`. -/
def stringsJoin : List String → String → String
  | [], _ => ""
  | e :: rest, sep => rest.foldl (fun b s => b ++ sep ++ s) e

/-- Go `strings.Repeat`. -/
def stringsRepeat (s : String) : Nat → String
  | 0 => ""
  | n + 1 => stringsRepeat s n ++ s

/-- Whether `os.Stat(messageFile)` returns a nil error. -/
def osStat : FileStatus → Bool
  | .absent => false
  | .present _ => true

/-- The path after `os.Remove(messageFile)`; the callers discard its error. -/
def osRemove : FileStatus → FileStatus
  | .present true => .absent
  | .present false => .present false
  | .absent => .absent

/-- Single-value type assertion `v.(map[string]interface{})`; `none` is the panic. -/
def assertMap : Json → Option (List (String × Json))
  | .obj kvs => some kvs
  | _ => none

/-- Single-value type assertion `v.(string)`; `none` is the panic. -/
def assertString : Json → Option String
  | .str s => some s
  | _ => none

/-- Map index `params[key]`: the zero value nil when the key is missing. -/
def mapIndex (params : List (String × Json)) (key : String) : Json :=
  match params.lookup key with
  | some v => v
  | none => .null

/-! ## Output -/

/-- Go `sendResponse`. -/
def sendResponse (id : Json) (result : Json) : List Line :=
  [.response ⟨"2.0", id, result, none⟩]

/-- Go `sendError`. -/
def sendError (id : Json) (code : Int) (message : String) : List Line :=
  [.response ⟨"2.0", id, .null, some ⟨code, message⟩⟩]

/-- Go `sendNotification`. -/
def sendNotification (s : State) (message : String) : List Line :=
  (if s.subscribers.length > 0 then
    [Line.notification ⟨"2.0", "notifications/resources/updated",
      .obj [("uri", .str "lazygit://messages"), ("title", .str "New lazygit comment received")]⟩]
   else []) ++
  [Line.notification ⟨"2.0", "notifications/message",
      .obj [("level", .str "info"), ("message", .str message)]⟩]

/-! ## File ingestion -/

/-- The dedup key of `readMessageFile`: the digest of `file|comment|time`. -/
def hashString (digest : String → String) (rawMessage : RawMessage) : String :=
  digest (stringsJoin [rawMessage.File, rawMessage.Comment, rawMessage.Time] "|")

/-- The duplicate check loop of `readMessageFile`: true when it returns early. -/
def isDuplicate (hash : String) : List LazygitMessage → Bool
  | [] => false
  | existingMsg :: rest => if existingMsg.Hash = hash then true else isDuplicate hash rest

/-- Go `readMessageFile`. -/
def readMessageFile (digest : String → String) (input : FileRead) (s : State) :
    State × List Line :=
  match input with
  | .readError => (s, [])
  | .parseError => (s, [])
  | .parsed rawMessage =>
    if rawMessage.ProjectRoot ≠ "" ∧ rawMessage.ProjectRoot ≠ s.currentProjectRoot then (s, [])
    else
      let hash := hashString digest rawMessage
      if isDuplicate hash s.messageQueue then (s, [])
      else
        let message : LazygitMessage :=
          ⟨rawMessage.File, rawMessage.Comment, rawMessage.ProjectRoot, rawMessage.Time, hash⟩
        let queue := s.messageQueue ++ [message]
        let queue := if queue.length > 10 then queue.drop 1 else queue
        let s1 : State := ⟨queue, s.subscribers, s.currentProjectRoot, s.messageFile⟩
        (s1, sendNotification s1 ("New message from lazygit: " ++ message.Comment))

/-! ## Request handlers -/

/-- The `fmt.Sprintf` of the drain loops; `i` is the 0-based loop index. -/
def formattedMessage (i : Nat) (msg : LazygitMessage) : String :=
  "Message " ++ toString (i + 1) ++ ":\nFile: " ++ msg.File ++ "\nComment: " ++ msg.Comment ++
    "\nTime: " ++ msg.Time ++ "\n\nPlease improve this code."

/-- The loop `for i, msg := range messageQueue` appending to `allMessages`. -/
def formatLoop : Nat → List LazygitMessage → List String → List String
  | _, [], allMessages => allMessages
  | i, msg :: rest, allMessages => formatLoop (i + 1) rest (allMessages ++ [formattedMessage i msg])

/-- The string `finalMessage` of both drain handlers. -/
def finalMessage (queue : List LazygitMessage) : String :=
  stringsJoin (formatLoop 0 queue []) ("\n" ++ stringsRepeat "-" 50 ++ "\n\n")

/-- Go `handleInitialize`. -/
def handleInitialize (req : MCPRequest) (s : State) : Outcome :=
  some (s, sendResponse req.ID (.obj [
    ("protocolVersion", .str "2024-11-05"),
    ("capabilities", .obj [
      ("resources", .obj [("subscribe", .bool true), ("listChanged", .bool true)]),
      ("tools", .obj [("listChanged", .bool false)])]),
    ("serverInfo", .obj [("name", .str "lazygit-claude-mcp"), ("version", .str "1.0.0")])]))

/-- Go `handleResourcesList`. -/
def handleResourcesList (req : MCPRequest) (s : State) : Outcome :=
  some (s, sendResponse req.ID (.obj [("resources", .arr [.obj [
    ("uri", .str "lazygit://messages"),
    ("name", .str "Lazygit Messages"),
    ("description", .str "Messages from lazygit for code improvement"),
    ("mimeType", .str "text/plain")]])]))

/-- Go `handleResourcesRead`. -/
def handleResourcesRead (req : MCPRequest) (s : State) : Outcome :=
  match assertMap req.Params with
  | none => none
  | some params =>
    match assertString (mapIndex params "uri") with
    | none => none
    | some uri =>
      if uri = "lazygit://messages" then
        if s.messageQueue.length > 0 then
          let result := Json.obj [("contents", .arr [.obj [
            ("uri", .str uri), ("mimeType", .str "text/plain"),
            ("text", .str (finalMessage s.messageQueue))]])]
          some (⟨[], s.subscribers, s.currentProjectRoot, if osStat s.messageFile then osRemove s.messageFile else s.messageFile⟩,
            sendResponse req.ID result)
        else
          let result := Json.obj [("contents", .arr [.obj [
            ("uri", .str uri), ("mimeType", .str "text/plain"),
            ("text", .str "No new messages from lazygit")]])]
          some (s, sendResponse req.ID result)
      else some (s, sendError req.ID (-32602) "Invalid resource URI")

/-- Go `handleToolsList`. -/
def handleToolsList (req : MCPRequest) (s : State) : Outcome :=
  some (s, sendResponse req.ID (.obj [("tools", .arr [.obj [
    ("name", .str "check_lazygit_messages"),
    ("description", .str "Check for new messages from lazygit"),
    ("inputSchema", .obj [("type", .str "object"), ("properties", .obj [])])]])]))

/-- Go `handleToolsCall`. -/
def handleToolsCall (req : MCPRequest) (s : State) : Outcome :=
  match assertMap req.Params with
  | none => none
  | some params =>
    match assertString (mapIndex params "name") with
    | none => none
    | some name =>
      if name = "check_lazygit_messages" then
        if s.messageQueue.length > 0 then
          let result := Json.obj [("content", .arr [.obj [
            ("type", .str "text"), ("text", .str (finalMessage s.messageQueue))]])]
          some (⟨[], s.subscribers, s.currentProjectRoot, if osStat s.messageFile then osRemove s.messageFile else s.messageFile⟩,
            sendResponse req.ID result)
        else
          let result := Json.obj [("content", .arr [.obj [
            ("type", .str "text"), ("text", .str "No new messages from lazygit")]])]
          some (s, sendResponse req.ID result)
      else some (s, sendError req.ID (-32602) "Unknown tool")

/-- Go `handleResourcesSubscribe`. -/
def handleResourcesSubscribe (req : MCPRequest) (s : State) : Outcome :=
  match assertMap req.Params with
  | none => none
  | some params =>
    match assertString (mapIndex params "uri") with
    | none => none
    | some uri =>
      if uri = "lazygit://messages" then
        some (⟨s.messageQueue, s.subscribers ++ [uri], s.currentProjectRoot, s.messageFile⟩,
          sendResponse req.ID (.obj []))
      else some (s, sendError req.ID (-32602) "Invalid resource URI")

/-- The loop of `handleResourcesUnsubscribe`: at the first `i` with
`subscribers[i] == uri`, `append(subscribers[:i], subscribers[i+1:]...)` and break. -/
def unsubscribeLoop (uri : String) (subscribers : List String) : Nat → List String → List String
  | _, [] => subscribers
  | i, sub :: rest =>
    if sub = uri then subscribers.take i ++ subscribers.drop (i + 1)
    else unsubscribeLoop uri subscribers (i + 1) rest

/-- Go `handleResourcesUnsubscribe`. -/
def handleResourcesUnsubscribe (req : MCPRequest) (s : State) : Outcome :=
  match assertMap req.Params with
  | none => none
  | some params =>
    match assertString (mapIndex params "uri") with
    | none => none
    | some uri =>
      some (⟨s.messageQueue, unsubscribeLoop uri s.subscribers 0 s.subscribers,
          s.currentProjectRoot, s.messageFile⟩,
        sendResponse req.ID (.obj []))

/-- Go `handleMCPRequest`, on the outcome of unmarshalling the line. -/
def handleMCPRequest (line : Unmarshalled) (s : State) : Outcome :=
  match line with
  | .err req => some (s, sendError req.ID (-32700) "Parse error")
  | .ok req =>
    if req.Method = "initialize" then handleInitialize req s
    else if req.Method = "initialized" then some (s, [])
    else if req.Method = "resources/list" then handleResourcesList req s
    else if req.Method = "resources/read" then handleResourcesRead req s
    else if req.Method = "tools/list" then handleToolsList req s
    else if req.Method = "tools/call" then handleToolsCall req s
    else if req.Method = "resources/subscribe" then handleResourcesSubscribe req s
    else if req.Method = "resources/unsubscribe" then handleResourcesUnsubscribe req s
    else some (s, sendError req.ID (-32601) "Method not found")

/-! ## The process as a transition system -/

/-- What can happen to the server: the watcher calls `readMessageFile`, a line
arrives on standard input, or another process creates or removes the file. -/
inductive Event where
  | fileEvent (input : FileRead)
  | request (line : Unmarshalled)
  | fileChange (status : FileStatus)

/-- One event; `none` when the handler panics. -/
def step (digest : String → String) (s : State) : Event → Outcome
  | .fileEvent input => some (readMessageFile digest input s)
  | .request line => handleMCPRequest line s
  | .fileChange status => some (⟨s.messageQueue, s.subscribers, s.currentProjectRoot, status⟩, [])

/-- A sequence of events, with everything printed along the way. -/
def run (digest : String → String) (s : State) : List Event → Outcome
  | [] => some (s, [])
  | e :: es =>
    match step digest s e with
    | none => none
    | some (s1, out1) =>
      match run digest s1 es with
      | none => none
      | some (s2, out2) => some (s2, out1 ++ out2)

/-- The message `readMessageFile` builds from an accepted `rawMessage`. -/
def toMessage (digest : String → String) (rawMessage : RawMessage) : LazygitMessage :=
  ⟨rawMessage.File, rawMessage.Comment, rawMessage.ProjectRoot, rawMessage.Time,
    hashString digest rawMessage⟩

/-- Ingesting parsed messages one by one with `readMessageFile`. -/
def ingestAll (digest : String → String) (s : State) (msgs : List RawMessage) : State :=
  msgs.foldl (fun st m => (readMessageFile digest (.parsed m) st).1) s

/-- The (file, comment, time) triple of a message. -/
def triple (rawMessage : RawMessage) : String × String × String :=
  (rawMessage.File, rawMessage.Comment, rawMessage.Time)

/-- A server that has just started: nothing queued, nobody subscribed. -/
def initial (root : String) (file : FileStatus) : State :=
  ⟨[], [], root, file⟩

/-! ## Requests and responses named by the specification -/

/-- A `resources/read` request whose `uri` is `lazygit://messages`. -/
def IsMessagesRead (req : MCPRequest) : Prop :=
  req.Method = "resources/read" ∧
    ∃ params, req.Params = .obj params ∧ mapIndex params "uri" = .str "lazygit://messages"

/-- A `tools/call` request whose `name` is `check_lazygit_messages`. -/
def IsCheckCall (req : MCPRequest) : Prop :=
  req.Method = "tools/call" ∧
    ∃ params, req.Params = .obj params ∧ mapIndex params "name" = .str "check_lazygit_messages"

/-- The `text` field of the single content entry of a success response. -/
def contentText : Line → Option String
  | .response ⟨_, _, .obj [(_, .arr [.obj kvs])], none⟩ =>
    match kvs.lookup "text" with
    | some (.str t) => some t
    | _ => none
  | _ => none

/-- The error code of an error response. -/
def errorCode : Line → Option Int
  | .response ⟨_, _, _, some e⟩ => some e.Code
  | _ => none

/-- The `id` of a response. -/
def responseId : Line → Option Json
  | .response r => some r.ID
  | .notification _ => none

/-! ## Reference format, written from the specification -/

/-- The separator: a line of exactly 50 hyphens, then an empty line. -/
def separatorLine : String :=
  "\n--------------------------------------------------\n\n"

/-- Block number `k` (counted from 1) for one message. -/
def referenceBlock (k : Nat) (m : LazygitMessage) : String :=
  String.join ["Message ", toString k, ":\nFile: ", m.File, "\nComment: ", m.Comment,
    "\nTime: ", m.Time, "\n\nPlease improve this code."]

/-- The reference text of a queue: the sentinel when empty, otherwise the
blocks 1..len(q) in queue order joined by the separator. -/
def referenceFormat (q : List LazygitMessage) : String :=
  if q.isEmpty then "No new messages from lazygit"
  else String.intercalate separatorLine (List.zipWith referenceBlock (List.range' 1 q.length) q)

/-! ## Auxiliary notions used in the statements -/

/-- State after a drain request: the queue is cleared; the file is removed when
the queue was not empty. -/
def drained (s : State) : State :=
  ⟨[], s.subscribers, s.currentProjectRoot,
    if s.messageQueue.isEmpty then s.messageFile
    else if osStat s.messageFile then osRemove s.messageFile else s.messageFile⟩

/-- The scope check of `readMessageFile` lets the message through. -/
def InScope (s : State) (rawMessage : RawMessage) : Prop :=
  rawMessage.ProjectRoot = "" ∨ rawMessage.ProjectRoot = s.currentProjectRoot

/-- The eight methods `handleMCPRequest` dispatches on. -/
def knownMethods : List String :=
  ["initialize", "initialized", "resources/list", "resources/read", "tools/list", "tools/call",
    "resources/subscribe", "resources/unsubscribe"]

/-! ## Concrete requests and messages -/

/-- The line `resources/read` with `uri` `lazygit://messages`, as unmarshalled. -/
def readRequest (id : Json) : MCPRequest :=
  ⟨"2.0", id, "resources/read", .obj [("uri", .str "lazygit://messages")]⟩

/-- The line `tools/call` with `name` `check_lazygit_messages`, as unmarshalled. -/
def checkRequest (id : Json) : MCPRequest :=
  ⟨"2.0", id, "tools/call", .obj [("name", .str "check_lazygit_messages")]⟩

/-- The example message of the specification. -/
def exampleMessage : RawMessage :=
  ⟨"a.go", "fix nil check", "/repo", "2024-01-01T00:00:00Z"⟩

/-- Two messages with different fields and the same `file|comment|time`. -/
def collidingMessages : List RawMessage :=
  [⟨"a|b", "c", "", "2024-01-01T00:00:00Z"⟩, ⟨"a", "b|c", "", "2024-01-01T00:00:00Z"⟩]

/-- A message that names no project. -/
def unscopedMessage : RawMessage :=
  ⟨"a.go", "fix nil check", "", "2024-01-01T00:00:00Z"⟩

/-- Message number `n` of a test series. -/
def numbered (n : String) : RawMessage :=
  ⟨"f" ++ n ++ ".go", "comment " ++ n, "", "2024-01-01T00:00:00Z"⟩

/-- Ten messages with ten different keys under the identity digest. -/
def tenMessages : List RawMessage :=
  ["0", "1", "2", "3", "4", "5", "6", "7", "8", "9"].map numbered

/-- Ten messages with ten different keys under the identity digest: the first
five name no project, the last five name the project `/repo`. -/
def mixedMessages : List RawMessage :=
  ["0", "1", "2", "3", "4"].map numbered ++
    ["5", "6", "7", "8", "9"].map (fun n => ⟨"g" ++ n ++ ".go", "note " ++ n, "/repo",
      "2024-01-02T00:00:00Z"⟩)

/-- A full queue. -/
def fullState : State :=
  ⟨tenMessages.map (toMessage id), [], "/repo", .present true⟩

/-- A full queue while the file cannot be removed. -/
def stuckState : State :=
  ⟨tenMessages.map (toMessage id), [], "/repo", .present false⟩

/-! ## Notifications and responses named by the specification -/

/-- The `notifications/resources/updated` notification naming `lazygit://messages`. -/
def updatedNotification : Line :=
  .notification ⟨"2.0", "notifications/resources/updated",
    .obj [("uri", .str "lazygit://messages"), ("title", .str "New lazygit comment received")]⟩

/-- The `notifications/message` notification at level `info` with the given message. -/
def messageNotification (message : String) : Line :=
  .notification ⟨"2.0", "notifications/message",
    .obj [("level", .str "info"), ("message", .str message)]⟩

/-- The success response with an empty result object. -/
def successResponse (id : Json) : Line :=
  .response ⟨"2.0", id, .obj [], none⟩

/-- A request of the given method whose params hold the given string `uri`. -/
def uriRequest (id : Json) (method uri : String) : MCPRequest :=
  ⟨"2.0", id, method, .obj [("uri", .str uri)]⟩

/-- A server with one subscription and nothing queued. -/
def subscribedState : State :=
  ⟨[], ["lazygit://messages"], "/repo", .present true⟩

/-! ## The drain, statement by statement

`Run` starts `watchMessageFile` as a goroutine and nothing guards
`messageQueue`, so calls of `readMessageFile` can fall between the statements
of a drain handler. The handler is cut at the three places the specification
names (format, respond, clear); a call of `readMessageFile` stays one step. -/

/-- Which handler drains: `handleResourcesRead` or `handleToolsCall`. -/
inductive Drain where
  | resourcesRead
  | toolsCall

/-- The format statements of a drain handler: the test `len(messageQueue) > 0`,
the loop and `strings.Join`. The text, and whether the non-empty branch runs. -/
def drainFormat (s : State) : String × Bool :=
  if s.messageQueue.length > 0 then (finalMessage s.messageQueue, true)
  else ("No new messages from lazygit", false)

/-- The respond statement of a drain handler: `sendResponse(req.ID, result)`. -/
def drainRespond (kind : Drain) (id : Json) (text : String) : List Line :=
  match kind with
  | .resourcesRead => sendResponse id (.obj [("contents", .arr [.obj [
      ("uri", .str "lazygit://messages"), ("mimeType", .str "text/plain"),
      ("text", .str text)]])])
  | .toolsCall => sendResponse id (.obj [("content", .arr [.obj [
      ("type", .str "text"), ("text", .str text)]])])

/-- The clear statements of the non-empty branch: `messageQueue = []LazygitMessage{}`
and the Stat / Remove of the file. -/
def drainClear (s : State) : State :=
  ⟨[], s.subscribers, s.currentProjectRoot,
    if osStat s.messageFile then osRemove s.messageFile else s.messageFile⟩

/-- Calls of `readMessageFile` by the watcher goroutine, one after another. -/
def watcherCalls (digest : String → String) (s : State) : List FileRead → State × List Line
  | [] => (s, [])
  | input :: rest =>
    let r := readMessageFile digest input s
    let r2 := watcherCalls digest r.1 rest
    (r2.1, r.2 ++ r2.2)

/-- Where the watcher's calls fall relative to the statements of one drain. -/
structure Interleaving where
  beforeFormat : List FileRead
  beforeRespond : List FileRead
  beforeClear : List FileRead

/-- What one drain did: the text it sent, everything printed meanwhile, and the
state when the handler returns. -/
structure DrainTrace where
  text : String
  out : List Line
  final : State

/-- One drain whose statements are interleaved with the watcher's calls. -/
def interleavedDrain (digest : String → String) (kind : Drain) (id : Json) (s : State)
    (i : Interleaving) : DrainTrace :=
  let r1 := watcherCalls digest s i.beforeFormat
  let f := drainFormat r1.1
  let r2 := watcherCalls digest r1.1 i.beforeRespond
  let response := drainRespond kind id f.1
  let r3 := watcherCalls digest r2.1 i.beforeClear
  ⟨f.1, r1.2 ++ r2.2 ++ response ++ r3.2, if f.2 then drainClear r3.1 else r3.1⟩

/-- The request matches the handler: `resources/read` on `lazygit://messages`
or `tools/call` on `check_lazygit_messages`. -/
def IsDrainOf (kind : Drain) (req : MCPRequest) : Prop :=
  match kind with
  | .resourcesRead => IsMessagesRead req
  | .toolsCall => IsCheckCall req

/-- One message queued, nobody subscribed. -/
def oneQueued (digest : String → String) : State :=
  ⟨[toMessage digest (numbered "0")], [], "/repo", .present true⟩

/-- The watcher's call falls between respond and clear. -/
def lateArrival : Interleaving :=
  ⟨[], [], [.parsed (numbered "1")]⟩

/-! ## Helper lemmas -/

theorem stringsJoin_eq_intercalate (l : List String) (sep : String) :
    stringsJoin l sep = String.intercalate sep l := by
  cases l with
  | nil => rfl
  | cons e rest =>
    simp only [stringsJoin, String.intercalate]
    induction rest generalizing e with
    | nil => rfl
    | cons a as ih => simp only [List.foldl_cons, String.intercalate.go]; exact ih _

theorem stringsRepeat_fifty : "\n" ++ stringsRepeat "-" 50 ++ "\n\n" = separatorLine := by
  decide

theorem formattedMessage_eq_referenceBlock (i : Nat) (m : LazygitMessage) :
    formattedMessage i m = referenceBlock (i + 1) m := by
  simp [formattedMessage, referenceBlock, String.join, String.append_assoc]

theorem formatLoop_eq (q : List LazygitMessage) (i : Nat) (acc : List String) :
    formatLoop i q acc = acc ++ List.zipWith referenceBlock (List.range' (i + 1) q.length) q := by
  induction q generalizing i acc with
  | nil => simp [formatLoop]
  | cons m rest ih =>
    simp [formatLoop, ih, List.range'_succ, formattedMessage_eq_referenceBlock]

theorem finalMessage_eq_referenceFormat (q : List LazygitMessage) (h : q ≠ []) :
    finalMessage q = referenceFormat q := by
  have hq : q.isEmpty = false := by cases q <;> simp_all
  simp [finalMessage, referenceFormat, hq, stringsJoin_eq_intercalate, stringsRepeat_fifty,
    formatLoop_eq]

theorem isDuplicate_iff (hash : String) (q : List LazygitMessage) :
    isDuplicate hash q = true ↔ hash ∈ q.map LazygitMessage.Hash := by
  induction q with
  | nil => simp [isDuplicate]
  | cons m rest ih =>
    by_cases h : m.Hash = hash
    · simp [isDuplicate, h]
    · have h2 : ¬ hash = m.Hash := fun e => h e.symm
      simp [isDuplicate, h, h2, ih]

theorem handleMCPRequest_read (req : MCPRequest) (s : State) (h : IsMessagesRead req) :
    handleMCPRequest (.ok req) s = some (drained s, sendResponse req.ID
      (.obj [("contents", .arr [.obj [("uri", .str "lazygit://messages"),
        ("mimeType", .str "text/plain"), ("text", .str (referenceFormat s.messageQueue))]])])) := by
  obtain ⟨hm, params, hp, hu⟩ := h
  obtain ⟨q, subs, root, fe⟩ := s
  cases q with
  | nil =>
    simp [handleMCPRequest, handleResourcesRead, hm, hp, hu, assertMap, assertString, drained,
      referenceFormat]
  | cons m rest =>
    have hne : m :: rest ≠ [] := by simp
    simp [handleMCPRequest, handleResourcesRead, hm, hp, hu, assertMap, assertString, drained,
      finalMessage_eq_referenceFormat _ hne]

theorem handleMCPRequest_call (req : MCPRequest) (s : State) (h : IsCheckCall req) :
    handleMCPRequest (.ok req) s = some (drained s, sendResponse req.ID
      (.obj [("content", .arr [.obj [("type", .str "text"),
        ("text", .str (referenceFormat s.messageQueue))]])])) := by
  obtain ⟨hm, params, hp, hu⟩ := h
  obtain ⟨q, subs, root, fe⟩ := s
  cases q with
  | nil =>
    simp [handleMCPRequest, handleToolsCall, hm, hp, hu, assertMap, assertString, drained,
      referenceFormat]
  | cons m rest =>
    have hne : m :: rest ≠ [] := by simp
    simp [handleMCPRequest, handleToolsCall, hm, hp, hu, assertMap, assertString, drained,
      finalMessage_eq_referenceFormat _ hne]

theorem readMessageFile_accepted (digest : String → String) (s : State) (raw : RawMessage)
    (hscope : InScope s raw) (hdup : isDuplicate (hashString digest raw) s.messageQueue = false) :
    readMessageFile digest (.parsed raw) s =
      (⟨if (s.messageQueue ++ [toMessage digest raw]).length > 10
          then (s.messageQueue ++ [toMessage digest raw]).drop 1
          else s.messageQueue ++ [toMessage digest raw],
        s.subscribers, s.currentProjectRoot, s.messageFile⟩,
       sendNotification s ("New message from lazygit: " ++ raw.Comment)) := by
  have h1 : ¬ (raw.ProjectRoot ≠ "" ∧ raw.ProjectRoot ≠ s.currentProjectRoot) := by
    rintro ⟨a, b⟩
    rcases hscope with h | h
    · exact a h
    · exact b h
  simp only [readMessageFile, if_neg h1, hdup, toMessage, sendNotification]
  simp

theorem readMessageFile_rejected (digest : String → String) (s : State) (raw : RawMessage)
    (h : ¬ InScope s raw ∨ isDuplicate (hashString digest raw) s.messageQueue = true) :
    readMessageFile digest (.parsed raw) s = (s, []) := by
  by_cases h1 : raw.ProjectRoot ≠ "" ∧ raw.ProjectRoot ≠ s.currentProjectRoot
  · simp only [readMessageFile, if_pos h1]
  · rcases h with h | h
    · exact absurd (by
        by_cases a : raw.ProjectRoot = ""
        · exact Or.inl a
        · by_cases b : raw.ProjectRoot = s.currentProjectRoot
          · exact Or.inr b
          · exact absurd ⟨a, b⟩ h1) h
    · simp only [readMessageFile, if_neg h1, h, if_true]

theorem readMessageFile_cases (digest : String → String) (input : FileRead) (s : State) :
    readMessageFile digest input s = (s, []) ∨
    ∃ raw, input = .parsed raw ∧ InScope s raw ∧
      isDuplicate (hashString digest raw) s.messageQueue = false := by
  cases input with
  | readError => exact Or.inl rfl
  | parseError => exact Or.inl rfl
  | parsed raw =>
    by_cases hs : InScope s raw
    · cases hd : isDuplicate (hashString digest raw) s.messageQueue with
      | true => exact Or.inl (readMessageFile_rejected digest s raw (Or.inr hd))
      | false => exact Or.inr ⟨raw, rfl, hs, hd⟩
    · exact Or.inl (readMessageFile_rejected digest s raw (Or.inl hs))

theorem handleMCPRequest_frame (line : Unmarshalled) (s s1 : State) (out : List Line)
    (h : handleMCPRequest line s = some (s1, out)) :
    (s1.messageQueue = s.messageQueue ∨ s1.messageQueue = []) ∧
      s1.currentProjectRoot = s.currentProjectRoot := by
  cases line with
  | err req =>
    simp only [handleMCPRequest, Option.some.injEq, Prod.mk.injEq] at h
    rw [← h.1]; exact ⟨Or.inl rfl, rfl⟩
  | ok req =>
    simp only [handleMCPRequest, handleInitialize, handleResourcesList, handleResourcesRead,
      handleToolsList, handleToolsCall, handleResourcesSubscribe, handleResourcesUnsubscribe] at h
    repeat' split at h
    all_goals first
      | (simp only [Option.some.injEq, Prod.mk.injEq] at h
         rw [← h.1]
         first
          | exact ⟨Or.inl rfl, rfl⟩
          | exact ⟨Or.inr rfl, rfl⟩)
      | exact absurd h (by simp)

/-- A property kept by every event holds after every run. -/
theorem run_preserves (digest : String → String) (P : State → Prop)
    (hstep : ∀ s e s1 out, P s → step digest s e = some (s1, out) → P s1)
    (events : List Event) (s0 s : State) (out : List Line)
    (h0 : P s0) (hrun : run digest s0 events = some (s, out)) : P s := by
  induction events generalizing s0 out with
  | nil =>
    simp only [run, Option.some.injEq, Prod.mk.injEq] at hrun
    rw [← hrun.1]; exact h0
  | cons e es ih =>
    simp only [run] at hrun
    cases hs : step digest s0 e with
    | none => simp [hs] at hrun
    | some r =>
      obtain ⟨s1, out1⟩ := r
      simp only [hs] at hrun
      cases hr : run digest s1 es with
      | none => simp [hr] at hrun
      | some r2 =>
        obtain ⟨s2, out2⟩ := r2
        simp only [hr, Option.some.injEq, Prod.mk.injEq] at hrun
        rw [hrun.1] at hr
        exact ih s1 out2 (hstep s0 e s1 out1 h0 hs) hr

/-- What an event can do to the queue: leave it, clear it, or append one
accepted message and drop the head when that makes eleven. -/
theorem step_cases (digest : String → String) (s s1 : State) (e : Event) (out : List Line)
    (h : step digest s e = some (s1, out)) :
    s1.currentProjectRoot = s.currentProjectRoot ∧
    (s1.messageQueue = s.messageQueue ∨ s1.messageQueue = [] ∨
      ∃ raw, InScope s raw ∧ isDuplicate (hashString digest raw) s.messageQueue = false ∧
        s1.messageQueue =
          if (s.messageQueue ++ [toMessage digest raw]).length > 10
            then (s.messageQueue ++ [toMessage digest raw]).drop 1
            else s.messageQueue ++ [toMessage digest raw]) := by
  cases e with
  | fileEvent input =>
    simp only [step, Option.some.injEq] at h
    rcases readMessageFile_cases digest input s with hr | ⟨raw, hin, hs, hd⟩
    · rw [hr] at h
      simp only [Prod.mk.injEq] at h
      rw [← h.1]; exact ⟨rfl, Or.inl rfl⟩
    · subst hin
      rw [readMessageFile_accepted digest s raw hs hd] at h
      simp only [Prod.mk.injEq] at h
      rw [← h.1]
      exact ⟨rfl, Or.inr (Or.inr ⟨raw, hs, hd, rfl⟩)⟩
  | request line =>
    simp only [step] at h
    obtain ⟨hq, hr⟩ := handleMCPRequest_frame line s s1 out h
    rcases hq with hq | hq
    · exact ⟨hr, Or.inl hq⟩
    · exact ⟨hr, Or.inr (Or.inl hq)⟩
  | fileChange status =>
    simp only [step, Option.some.injEq, Prod.mk.injEq] at h
    rw [← h.1]; exact ⟨rfl, Or.inl rfl⟩

theorem step_length_le (digest : String → String) (s : State) (e : Event) (s1 : State)
    (out : List Line) (hs : s.messageQueue.length ≤ 10) (h : step digest s e = some (s1, out)) :
    s1.messageQueue.length ≤ 10 := by
  obtain ⟨_, hq | hq | ⟨raw, _, _, hq⟩⟩ := step_cases digest s s1 e out h
  · rw [hq]; exact hs
  · rw [hq]; simp
  · rw [hq]
    split
    · simp only [List.length_drop, List.length_append, List.length_singleton]; omega
    · rename_i hle; omega

theorem step_nodup (digest : String → String) (s : State) (e : Event) (s1 : State)
    (out : List Line) (hs : (s.messageQueue.map LazygitMessage.Hash).Nodup)
    (h : step digest s e = some (s1, out)) :
    (s1.messageQueue.map LazygitMessage.Hash).Nodup := by
  obtain ⟨_, hq | hq | ⟨raw, _, hd, hq⟩⟩ := step_cases digest s s1 e out h
  · rw [hq]; exact hs
  · rw [hq]; simp
  · have hnot : hashString digest raw ∉ s.messageQueue.map LazygitMessage.Hash := by
      intro hmem
      rw [(isDuplicate_iff _ _).mpr hmem] at hd
      exact Bool.noConfusion hd
    have hall : ((s.messageQueue ++ [toMessage digest raw]).map LazygitMessage.Hash).Nodup := by
      rw [List.map_append, List.nodup_append]
      refine ⟨hs, by simp, ?_⟩
      intro a ha hb
      simp only [List.map_cons, List.map_nil, List.mem_singleton, toMessage] at hb
      exact hnot (hb ▸ ha)
    rw [hq]
    split
    · rw [List.map_drop]
      exact (List.drop_sublist 1 _).nodup hall
    · exact hall

theorem step_scope (digest : String → String) (root : String) (s : State) (e : Event)
    (s1 : State) (out : List Line)
    (hs : s.currentProjectRoot = root ∧
      ∀ m ∈ s.messageQueue, m.ProjectRoot = "" ∨ m.ProjectRoot = root)
    (h : step digest s e = some (s1, out)) :
    s1.currentProjectRoot = root ∧
      ∀ m ∈ s1.messageQueue, m.ProjectRoot = "" ∨ m.ProjectRoot = root := by
  obtain ⟨hr, hq⟩ := step_cases digest s s1 e out h
  refine ⟨hr.trans hs.1, ?_⟩
  rcases hq with hq | hq | ⟨raw, hin, _, hq⟩
  · rw [hq]; exact hs.2
  · rw [hq]; simp
  · have hall : ∀ m ∈ s.messageQueue ++ [toMessage digest raw],
        m.ProjectRoot = "" ∨ m.ProjectRoot = root := by
      intro m hm
      rcases List.mem_append.mp hm with hm | hm
      · exact hs.2 m hm
      · simp only [List.mem_singleton] at hm
        subst hm
        rw [← hs.1]
        exact hin
    rw [hq]
    split
    · intro m hm
      exact hall m (List.mem_of_mem_drop hm)
    · exact hall

/-- Ingesting messages that fit, are in scope and carry fresh keys appends them
in order. -/
theorem ingestAll_queue (digest : String → String) (msgs : List RawMessage) (s : State)
    (hlen : s.messageQueue.length + msgs.length ≤ 10)
    (hscope : ∀ m ∈ msgs, m.ProjectRoot = "" ∨ m.ProjectRoot = s.currentProjectRoot)
    (hkeys : (s.messageQueue.map LazygitMessage.Hash ++ msgs.map (hashString digest)).Nodup) :
    ingestAll digest s msgs =
      ⟨s.messageQueue ++ msgs.map (toMessage digest), s.subscribers, s.currentProjectRoot,
        s.messageFile⟩ := by
  induction msgs generalizing s with
  | nil => simp [ingestAll]
  | cons m rest ih =>
    have hd : isDuplicate (hashString digest m) s.messageQueue = false := by
      cases hc : isDuplicate (hashString digest m) s.messageQueue with
      | false => rfl
      | true =>
        have hmem := (isDuplicate_iff _ _).mp hc
        rw [List.nodup_append] at hkeys
        exact absurd (List.mem_cons_self _ _) (fun hx => hkeys.2.2 hmem hx)
    have hacc := readMessageFile_accepted digest s m (hscope m (List.mem_cons_self _ _)) hd
    simp only [List.length_cons] at hlen
    have hnot : ¬ (s.messageQueue ++ [toMessage digest m]).length > 10 := by
      simp only [List.length_append, List.length_singleton]; omega
    rw [if_neg hnot] at hacc
    simp only [ingestAll, List.foldl_cons, hacc]
    have := ih ⟨s.messageQueue ++ [toMessage digest m], s.subscribers, s.currentProjectRoot,
      s.messageFile⟩
      (by simp only [List.length_append, List.length_singleton]; omega)
      (fun x hx => hscope x (List.mem_cons_of_mem _ hx))
      (by
        simp only [List.map_append, List.map_cons, List.map_nil, toMessage, List.append_assoc,
          List.singleton_append]
        simpa using hkeys)
    simp only [ingestAll] at this
    rw [this]
    simp

theorem isMessagesRead_readRequest (id : Json) : IsMessagesRead (readRequest id) :=
  ⟨rfl, _, rfl, rfl⟩

theorem isCheckCall_checkRequest (id : Json) : IsCheckCall (checkRequest id) :=
  ⟨rfl, _, rfl, rfl⟩

theorem drain_text (req : MCPRequest) (s : State) (h : IsMessagesRead req ∨ IsCheckCall req) :
    ∃ l, handleMCPRequest (.ok req) s = some (drained s, [l]) ∧
      contentText l = some (referenceFormat s.messageQueue) ∧ responseId l = some req.ID := by
  rcases h with h | h
  · exact ⟨_, handleMCPRequest_read req s h, rfl, rfl⟩
  · exact ⟨_, handleMCPRequest_call req s h, rfl, rfl⟩

/-! ## C1 -/

/-- C1 (amended): for every sequence of at most 10 in-scope messages whose
dedup keys (digest of file|comment|time) are pairwise distinct, ingesting them
one by one into an empty queue and then draining by either path returns the
reference text of all of them, numbered 1..n in arrival order, and the queue
is empty afterwards. -/
theorem C1_ingest_then_drain (digest : String → String) (s0 : State) (msgs : List RawMessage)
    (req : MCPRequest)
    (hempty : s0.messageQueue = [])
    (hlen : msgs.length ≤ 10)
    (hscope : ∀ m ∈ msgs, m.ProjectRoot = "" ∨ m.ProjectRoot = s0.currentProjectRoot)
    (hkeys : (msgs.map (hashString digest)).Nodup)
    (hreq : IsMessagesRead req ∨ IsCheckCall req) :
    (ingestAll digest s0 msgs).messageQueue = msgs.map (toMessage digest) ∧
    ∃ s1 l, handleMCPRequest (.ok req) (ingestAll digest s0 msgs) = some (s1, [l]) ∧
      contentText l = some (referenceFormat (msgs.map (toMessage digest))) ∧
      s1.messageQueue = [] := by
  have hq := ingestAll_queue digest msgs s0 (by rw [hempty]; simpa using hlen) hscope
    (by rw [hempty]; simpa using hkeys)
  rw [hempty] at hq
  simp only [List.nil_append] at hq
  refine ⟨by rw [hq], ?_⟩
  obtain ⟨l, h1, h2, _⟩ := drain_text req (ingestAll digest s0 msgs) hreq
  refine ⟨_, l, h1, ?_, rfl⟩
  rw [h2, hq]

/-- C1 witness: ten messages with ten different keys, some naming the server's
project and some naming none, ingested in order and drained by `resources/read`;
the text is the ten numbered blocks in arrival order. -/
theorem C1_ingest_then_drain_witness :
    mixedMessages.length = 10 ∧
    (mixedMessages.map (hashString id)).Nodup ∧
    (ingestAll id (initial "/repo" (.present true)) mixedMessages).messageQueue =
        mixedMessages.map (toMessage id) ∧
    ∃ s1 l, handleMCPRequest (.ok (readRequest (.number "1")))
        (ingestAll id (initial "/repo" (.present true)) mixedMessages) = some (s1, [l]) ∧
      contentText l = some (referenceFormat (mixedMessages.map (toMessage id))) ∧
      s1.messageQueue = [] :=
  ⟨by decide, by decide,
    C1_ingest_then_drain id (initial "/repo" (.present true)) mixedMessages
      (readRequest (.number "1")) rfl (by decide) (by decide) (by decide)
      (Or.inl (isMessagesRead_readRequest _))⟩

/-- C1 as stated fails: two messages with distinct (file, comment, time)
triples join to the same `a|b|c|...` string, so under every digest the second
is dropped as a duplicate and the drain returns one block, not two. -/
theorem C1_counterexample :
    collidingMessages.length ≤ 10 ∧ (collidingMessages.map triple).Nodup ∧
    (∀ m ∈ collidingMessages, m.ProjectRoot = "") ∧
    ∀ digest : String → String,
      (ingestAll digest (initial "/repo" (.present true)) collidingMessages).messageQueue =
        [toMessage digest ⟨"a|b", "c", "", "2024-01-01T00:00:00Z"⟩] ∧
      ∃ s1 l, handleMCPRequest (.ok (readRequest (.number "1")))
          (ingestAll digest (initial "/repo" (.present true)) collidingMessages) = some (s1, [l]) ∧
        contentText l = some
          "Message 1:\nFile: a|b\nComment: c\nTime: 2024-01-01T00:00:00Z\n\nPlease improve this code." ∧
        contentText l ≠ some (referenceFormat (collidingMessages.map (toMessage digest))) := by
  refine ⟨by decide, by decide, by decide, ?_⟩
  intro digest
  have hq : ingestAll digest (initial "/repo" (.present true)) collidingMessages =
      ⟨[toMessage digest ⟨"a|b", "c", "", "2024-01-01T00:00:00Z"⟩], [], "/repo", .present true⟩ := by
    have hk : hashString digest ⟨"a", "b|c", "", "2024-01-01T00:00:00Z"⟩ =
        hashString digest ⟨"a|b", "c", "", "2024-01-01T00:00:00Z"⟩ := by
      simp only [hashString]
      congr 1
    simp [ingestAll, collidingMessages, initial, readMessageFile, isDuplicate, hk, toMessage]
  rw [hq]
  refine ⟨rfl, ?_⟩
  obtain ⟨l, h1, h2, _⟩ := drain_text (readRequest (.number "1"))
    ⟨[toMessage digest ⟨"a|b", "c", "", "2024-01-01T00:00:00Z"⟩], [], "/repo", .present true⟩
    (Or.inl (isMessagesRead_readRequest _))
  refine ⟨_, l, h1, ?_, ?_⟩
  · rw [h2]
    rfl
  · rw [h2]
    have e1 : referenceFormat [toMessage digest ⟨"a|b", "c", "", "2024-01-01T00:00:00Z"⟩] =
        referenceFormat [toMessage id ⟨"a|b", "c", "", "2024-01-01T00:00:00Z"⟩] := rfl
    have e2 : referenceFormat (collidingMessages.map (toMessage digest)) =
        referenceFormat (collidingMessages.map (toMessage id)) := rfl
    rw [e1, e2]
    decide

/-! ## C2 -/

/-- C2: for every queue of exactly 10 messages and every accepted new message
(in scope, key not in the queue), `readMessageFile` leaves the previous
messages 2 through 10 in their order followed by the new one: only the oldest
is evicted. -/
theorem C2_fifo_eviction (digest : String → String) (s : State) (raw : RawMessage)
    (hlen : s.messageQueue.length = 10)
    (hscope : InScope s raw)
    (hnew : hashString digest raw ∉ s.messageQueue.map LazygitMessage.Hash) :
    ∃ oldest rest, s.messageQueue = oldest :: rest ∧
      (readMessageFile digest (.parsed raw) s).1.messageQueue = rest ++ [toMessage digest raw] := by
  have hd : isDuplicate (hashString digest raw) s.messageQueue = false := by
    cases hc : isDuplicate (hashString digest raw) s.messageQueue with
    | false => rfl
    | true => exact absurd ((isDuplicate_iff _ _).mp hc) hnew
  rw [readMessageFile_accepted digest s raw hscope hd]
  cases hq : s.messageQueue with
  | nil => rw [hq] at hlen; simp at hlen
  | cons oldest rest =>
    refine ⟨oldest, rest, rfl, ?_⟩
    rw [hq] at hlen
    have hgt : ((oldest :: rest) ++ [toMessage digest raw]).length > 10 := by
      simp only [List.length_append, List.length_singleton]; omega
    simp only [if_pos hgt]
    rfl

/-- C2 witness: an eleventh message arrives at a full queue. -/
theorem C2_fifo_eviction_witness :
    fullState.messageQueue.length = 10 ∧
    ∃ oldest rest, fullState.messageQueue = oldest :: rest ∧
      (readMessageFile id (.parsed (numbered "10")) fullState).1.messageQueue =
        rest ++ [toMessage id (numbered "10")] :=
  ⟨by decide, C2_fifo_eviction id fullState (numbered "10") (by decide) (Or.inl rfl) (by decide)⟩

/-! ## C3 -/

/-- C3: in every state reached from an empty queue by any sequence of file
events, requests and file changes, the queue holds at most 10 messages. -/
theorem C3_queue_bounded (digest : String → String) (events : List Event) (s0 s : State)
    (out : List Line) (hempty : s0.messageQueue = [])
    (hrun : run digest s0 events = some (s, out)) :
    s.messageQueue.length ≤ 10 :=
  run_preserves digest (fun st => st.messageQueue.length ≤ 10)
    (fun st e st1 o hP hstep => step_length_le digest st e st1 o hP hstep)
    events s0 s out (by simp [hempty]) hrun

/-- C3 witness: eleven ingestions and the states they pass through. -/
theorem C3_queue_bounded_witness :
    ∃ s out, run id (initial "/repo" (.present true))
        ((tenMessages ++ [numbered "10"]).map (fun m => Event.fileEvent (.parsed m))) =
          some (s, out) ∧ s.messageQueue.length ≤ 10 := by
  obtain ⟨⟨s, out⟩, h⟩ := Option.isSome_iff_exists.mp (by decide :
    (run id (initial "/repo" (.present true))
      ((tenMessages ++ [numbered "10"]).map (fun m => Event.fileEvent (.parsed m)))).isSome = true)
  exact ⟨s, out, h, C3_queue_bounded id _ (initial "/repo" (.present true)) s out rfl h⟩

/-! ## C4 -/

/-- C4: in every state reached from an empty queue no two queued messages
have the same dedup key, and an ingestion whose key equals the key of a queued
message changes nothing and prints nothing. -/
theorem C4_keys_unique (digest : String → String) (events : List Event) (s0 s : State)
    (out : List Line) (hempty : s0.messageQueue = [])
    (hrun : run digest s0 events = some (s, out)) :
    (s.messageQueue.map LazygitMessage.Hash).Nodup ∧
    ∀ raw, hashString digest raw ∈ s.messageQueue.map LazygitMessage.Hash →
      readMessageFile digest (.parsed raw) s = (s, []) := by
  refine ⟨?_, ?_⟩
  · exact run_preserves digest (fun st => (st.messageQueue.map LazygitMessage.Hash).Nodup)
      (fun st e st1 o hP hstep => step_nodup digest st e st1 o hP hstep)
      events s0 s out (by simp [hempty]) hrun
  · intro raw hmem
    exact readMessageFile_rejected digest s raw (Or.inr ((isDuplicate_iff _ _).mpr hmem))

/-- C4 witness: the same message delivered twice by the watcher. -/
theorem C4_keys_unique_witness :
    ∃ s out, run id (initial "/repo" (.present true))
        [Event.fileEvent (.parsed exampleMessage), Event.fileEvent (.parsed exampleMessage)] =
          some (s, out) ∧
      s.messageQueue = [toMessage id exampleMessage] ∧
      (s.messageQueue.map LazygitMessage.Hash).Nodup ∧
      ∀ raw, hashString id raw ∈ s.messageQueue.map LazygitMessage.Hash →
        readMessageFile id (.parsed raw) s = (s, []) := by
  obtain ⟨⟨s, out⟩, h⟩ := Option.isSome_iff_exists.mp (by decide :
    (run id (initial "/repo" (.present true))
      [Event.fileEvent (.parsed exampleMessage),
       Event.fileEvent (.parsed exampleMessage)]).isSome = true)
  have hq : (run id (initial "/repo" (.present true))
      [Event.fileEvent (.parsed exampleMessage),
       Event.fileEvent (.parsed exampleMessage)]).map (fun r => r.1.messageQueue) =
        some [toMessage id exampleMessage] := by decide
  rw [h] at hq
  simp only [Option.map_some', Option.some.injEq] at hq
  exact ⟨s, out, h, hq, C4_keys_unique id _ (initial "/repo" (.present true)) s out rfl h⟩

/-! ## C5 -/

/-- C5 (amended): in every state reached from an empty queue, every queued
message has an empty project_root or the server's root; an ingestion whose
project_root is non-empty and differs from the server's root changes nothing;
and both drain paths return the reference text of that queue, so no such
message appears in it. -/
theorem C5_scope (digest : String → String) (events : List Event) (s0 s : State)
    (out : List Line) (hempty : s0.messageQueue = [])
    (hrun : run digest s0 events = some (s, out)) :
    (∀ m ∈ s.messageQueue, m.ProjectRoot = "" ∨ m.ProjectRoot = s0.currentProjectRoot) ∧
    (∀ raw : RawMessage, raw.ProjectRoot ≠ "" → raw.ProjectRoot ≠ s0.currentProjectRoot →
      readMessageFile digest (.parsed raw) s = (s, [])) ∧
    (∀ req, IsMessagesRead req ∨ IsCheckCall req →
      ∃ s1 l, handleMCPRequest (.ok req) s = some (s1, [l]) ∧
        contentText l = some (referenceFormat s.messageQueue)) := by
  have hinv := run_preserves digest
    (fun st => st.currentProjectRoot = s0.currentProjectRoot ∧
      ∀ m ∈ st.messageQueue, m.ProjectRoot = "" ∨ m.ProjectRoot = s0.currentProjectRoot)
    (fun st e st1 o hP hstep => step_scope digest s0.currentProjectRoot st e st1 o hP hstep)
    events s0 s out ⟨rfl, by simp [hempty]⟩ hrun
  refine ⟨hinv.2, ?_, ?_⟩
  · intro raw h1 h2
    apply readMessageFile_rejected digest s raw
    left
    rintro (h | h)
    · exact h1 h
    · exact h2 (h.trans hinv.1)
  · intro req hreq
    obtain ⟨l, h1, h2, _⟩ := drain_text req s hreq
    exact ⟨_, l, h1, h2⟩

/-- C5 witness: a message of another project is offered, then one of this
project. -/
theorem C5_scope_witness :
    ∃ s out, run id (initial "/repo" (.present true))
        [Event.fileEvent (.parsed ⟨"b.go", "other", "/elsewhere", "2024-01-01T00:00:00Z"⟩),
         Event.fileEvent (.parsed exampleMessage)] = some (s, out) ∧
      s.messageQueue = [toMessage id exampleMessage] ∧
      (∀ m ∈ s.messageQueue, m.ProjectRoot = "" ∨ m.ProjectRoot = "/repo") ∧
      (∀ raw : RawMessage, raw.ProjectRoot ≠ "" → raw.ProjectRoot ≠ "/repo" →
        readMessageFile id (.parsed raw) s = (s, [])) ∧
      (∀ req, IsMessagesRead req ∨ IsCheckCall req →
        ∃ s1 l, handleMCPRequest (.ok req) s = some (s1, [l]) ∧
          contentText l = some (referenceFormat s.messageQueue)) := by
  obtain ⟨⟨s, out⟩, h⟩ := Option.isSome_iff_exists.mp (by decide :
    (run id (initial "/repo" (.present true))
      [Event.fileEvent (.parsed ⟨"b.go", "other", "/elsewhere", "2024-01-01T00:00:00Z"⟩),
       Event.fileEvent (.parsed exampleMessage)]).isSome = true)
  have hq : (run id (initial "/repo" (.present true))
      [Event.fileEvent (.parsed ⟨"b.go", "other", "/elsewhere", "2024-01-01T00:00:00Z"⟩),
       Event.fileEvent (.parsed exampleMessage)]).map (fun r => r.1.messageQueue) =
        some [toMessage id exampleMessage] := by decide
  rw [h] at hq
  simp only [Option.map_some', Option.some.injEq] at hq
  exact ⟨s, out, h, hq, C5_scope id _ (initial "/repo" (.present true)) s out rfl h⟩

/-- C5 as stated fails: with server root `/repo`, a message whose project_root
is empty (so differs from the root) is queued and is the text of the next
drain, by either path. -/
theorem C5_counterexample :
    unscopedMessage.ProjectRoot ≠ "/repo" ∧
    ∀ digest : String → String,
      (readMessageFile digest (.parsed unscopedMessage) (initial "/repo" (.present true))).1.messageQueue =
        [toMessage digest unscopedMessage] ∧
      (∃ s1 l, handleMCPRequest (.ok (readRequest (.number "1")))
          (readMessageFile digest (.parsed unscopedMessage) (initial "/repo" (.present true))).1 =
            some (s1, [l]) ∧
        contentText l = some
          "Message 1:\nFile: a.go\nComment: fix nil check\nTime: 2024-01-01T00:00:00Z\n\nPlease improve this code.") ∧
      (∃ s1 l, handleMCPRequest (.ok (checkRequest (.number "1")))
          (readMessageFile digest (.parsed unscopedMessage) (initial "/repo" (.present true))).1 =
            some (s1, [l]) ∧
        contentText l = some
          "Message 1:\nFile: a.go\nComment: fix nil check\nTime: 2024-01-01T00:00:00Z\n\nPlease improve this code.") := by
  refine ⟨by decide, ?_⟩
  intro digest
  refine ⟨rfl, ?_, ?_⟩
  · obtain ⟨l, h1, h2, _⟩ := drain_text (readRequest (.number "1"))
      (readMessageFile digest (.parsed unscopedMessage) (initial "/repo" (.present true))).1
      (Or.inl (isMessagesRead_readRequest _))
    exact ⟨_, l, h1, h2.trans rfl⟩
  · obtain ⟨l, h1, h2, _⟩ := drain_text (checkRequest (.number "1"))
      (readMessageFile digest (.parsed unscopedMessage) (initial "/repo" (.present true))).1
      (Or.inr (isCheckCall_checkRequest _))
    exact ⟨_, l, h1, h2.trans rfl⟩

/-! ## C6 -/

/-- C6: for every state, `resources/read` on `lazygit://messages` and
`tools/call` on `check_lazygit_messages` answer with one response each, carry
the same text in their single content entry, and leave the same state. -/
theorem C6_read_call_equivalent (s : State) (reqR reqT : MCPRequest)
    (hR : IsMessagesRead reqR) (hT : IsCheckCall reqT) :
    ∃ s1 lr lt text,
      handleMCPRequest (.ok reqR) s = some (s1, [lr]) ∧
      handleMCPRequest (.ok reqT) s = some (s1, [lt]) ∧
      contentText lr = some text ∧ contentText lt = some text := by
  obtain ⟨lr, h1, h2, _⟩ := drain_text reqR s (Or.inl hR)
  obtain ⟨lt, h3, h4, _⟩ := drain_text reqT s (Or.inr hT)
  exact ⟨_, lr, lt, _, h1, h3, h2, h4⟩

/-- C6 witness: both requests at a full queue. -/
theorem C6_read_call_equivalent_witness :
    ∃ s1 lr lt text,
      handleMCPRequest (.ok (readRequest (.number "7"))) fullState = some (s1, [lr]) ∧
      handleMCPRequest (.ok (checkRequest (.str "x"))) fullState = some (s1, [lt]) ∧
      contentText lr = some text ∧ contentText lt = some text :=
  C6_read_call_equivalent fullState (readRequest (.number "7")) (checkRequest (.str "x"))
    (isMessagesRead_readRequest _) (isCheckCall_checkRequest _)

/-! ## C7 -/

/-- C7: for every queue the text returned by a drain (either path) is the
reference format of the queue: the sentinel when it is empty, otherwise the
numbered blocks in queue order joined by the separator, which is a newline,
exactly 50 hyphens and two newlines. -/
theorem C7_drain_format (s : State) (req : MCPRequest)
    (hreq : IsMessagesRead req ∨ IsCheckCall req) :
    (∃ s1 l, handleMCPRequest (.ok req) s = some (s1, [l]) ∧
      contentText l = some (referenceFormat s.messageQueue)) ∧
    referenceFormat [] = "No new messages from lazygit" ∧
    separatorLine = "\n" ++ String.mk (List.replicate 50 '-') ++ "\n\n" := by
  obtain ⟨l, h1, h2, _⟩ := drain_text req s hreq
  exact ⟨⟨_, l, h1, h2⟩, rfl, by decide⟩

/-- C7 witness: the one message a.go / fix nil check / 2024-01-01T00:00:00Z
yields a text that starts with the block named in the specification. -/
theorem C7_drain_format_witness :
    ∃ s1 l, handleMCPRequest (.ok (checkRequest (.number "1")))
        ⟨[toMessage id exampleMessage], [], "/repo", .present true⟩ = some (s1, [l]) ∧
      contentText l = some
        ("Message 1:\nFile: a.go\nComment: fix nil check\nTime: 2024-01-01T00:00:00Z" ++
          "\n\nPlease improve this code.") := by
  obtain ⟨⟨s1, l, h1, h2⟩, _⟩ := C7_drain_format
    ⟨[toMessage id exampleMessage], [], "/repo", .present true⟩ (checkRequest (.number "1"))
    (Or.inr (isCheckCall_checkRequest _))
  refine ⟨s1, l, h1, ?_⟩
  rw [h2]
  decide

/-! ## C8 -/

/-- C8 fails on the code: a request to `resources/read`, `tools/call`,
`resources/subscribe` or `resources/unsubscribe` whose params are absent, or
are an object without a string `uri` / `name`, makes the unchecked type
assertion panic: nothing is printed and the process ends. -/
theorem C8_unchecked_params_panic (s : State) (id : Json) :
    handleMCPRequest (.ok ⟨"2.0", id, "resources/read", .null⟩) s = none ∧
    handleMCPRequest (.ok ⟨"2.0", id, "tools/call", .null⟩) s = none ∧
    handleMCPRequest (.ok ⟨"2.0", id, "resources/subscribe", .null⟩) s = none ∧
    handleMCPRequest (.ok ⟨"2.0", id, "resources/unsubscribe", .null⟩) s = none ∧
    handleMCPRequest (.ok ⟨"2.0", id, "resources/read", .obj []⟩) s = none ∧
    handleMCPRequest (.ok ⟨"2.0", id, "tools/call", .obj [("name", .number "1")]⟩) s = none :=
  ⟨rfl, rfl, rfl, rfl, rfl, rfl⟩

/-! ## C9 -/

/-- C9 (amended): for every state whose queue is not empty, if the backing
file exists and `os.Remove` on it succeeds, then after `resources/read` on
`lazygit://messages` or `tools/call` on `check_lazygit_messages` the file does
not exist; when the queue is empty, or when `os.Remove` fails, the request
leaves the file as it was. -/
theorem C9_file_removed (s : State) (req : MCPRequest)
    (hreq : IsMessagesRead req ∨ IsCheckCall req) :
    ∃ s1 out, handleMCPRequest (.ok req) s = some (s1, out) ∧
      (s.messageQueue ≠ [] → s.messageFile = .present true → s1.messageFile = .absent) ∧
      (s.messageQueue = [] → s1.messageFile = s.messageFile) ∧
      (s.messageFile ≠ .present true → s1.messageFile = s.messageFile) := by
  obtain ⟨l, h1, _, _⟩ := drain_text req s hreq
  refine ⟨_, _, h1, ?_, ?_, ?_⟩
  · intro hne hfile
    cases hq : s.messageQueue with
    | nil => exact absurd hq hne
    | cons m rest => simp [drained, hq, hfile, osStat, osRemove]
  · intro he
    simp [drained, he]
  · intro hfile
    cases hf : s.messageFile with
    | absent => simp [drained, hf, osStat]
    | present removable =>
      cases removable with
      | true => exact absurd hf hfile
      | false => simp [drained, hf, osStat, osRemove]

/-- C9 witness: a drain of a full queue while the file exists and can be
removed. -/
theorem C9_file_removed_witness :
    fullState.messageQueue ≠ [] ∧ fullState.messageFile = .present true ∧
    ∃ s1, (∃ out, handleMCPRequest (.ok (readRequest (.number "1"))) fullState =
        some (s1, out)) ∧ s1.messageFile = .absent := by
  obtain ⟨s1, out, h, hrem, _, _⟩ := C9_file_removed fullState (readRequest (.number "1"))
    (Or.inl (isMessagesRead_readRequest _))
  exact ⟨by decide, rfl, s1, ⟨out, h⟩, hrem (by decide) rfl⟩

/-- C9 as stated fails twice over: with an empty queue and the file present
(and removable), both drain requests answer and the file is still there; with a
full queue and a file that `os.Remove` cannot remove, the drain clears the
queue and the file is still there. -/
theorem C9_counterexample :
    (∃ out, handleMCPRequest (.ok (readRequest (.number "1"))) (initial "/repo" (.present true)) =
      some (⟨[], [], "/repo", .present true⟩, out)) ∧
    (∃ out, handleMCPRequest (.ok (checkRequest (.number "1"))) (initial "/repo" (.present true)) =
      some (⟨[], [], "/repo", .present true⟩, out)) ∧
    (∃ out, handleMCPRequest (.ok (readRequest (.number "1"))) stuckState =
      some (⟨[], [], "/repo", .present false⟩, out)) ∧
    (∃ out, handleMCPRequest (.ok (checkRequest (.number "1"))) stuckState =
      some (⟨[], [], "/repo", .present false⟩, out)) :=
  ⟨⟨_, rfl⟩, ⟨_, rfl⟩, ⟨_, rfl⟩, ⟨_, rfl⟩⟩

/-! ## C10 -/

/-- C10: for every state and request, a method outside the eight known ones
gives one error response with code -32601; `resources/read` or
`resources/subscribe` with a uri other than `lazygit://messages`, and
`tools/call` with a name other than `check_lazygit_messages`, give one error
response with code -32602; each echoes the request id and leaves the whole
state (queue, subscriptions, file) as it was. -/
theorem C10_protocol_errors (s : State) (req : MCPRequest) :
    (req.Method ∉ knownMethods →
      ∃ l, handleMCPRequest (.ok req) s = some (s, [l]) ∧
        errorCode l = some (-32601) ∧ responseId l = some req.ID) ∧
    (∀ params uri, req.Method = "resources/read" ∨ req.Method = "resources/subscribe" →
      req.Params = .obj params → mapIndex params "uri" = .str uri → uri ≠ "lazygit://messages" →
      ∃ l, handleMCPRequest (.ok req) s = some (s, [l]) ∧
        errorCode l = some (-32602) ∧ responseId l = some req.ID) ∧
    (∀ params name, req.Method = "tools/call" →
      req.Params = .obj params → mapIndex params "name" = .str name →
      name ≠ "check_lazygit_messages" →
      ∃ l, handleMCPRequest (.ok req) s = some (s, [l]) ∧
        errorCode l = some (-32602) ∧ responseId l = some req.ID) := by
  refine ⟨?_, ?_, ?_⟩
  · intro h
    simp only [knownMethods, List.mem_cons, List.mem_singleton, List.not_mem_nil, or_false,
      not_or] at h
    obtain ⟨h1, h2, h3, h4, h5, h6, h7, h8⟩ := h
    refine ⟨.response ⟨"2.0", req.ID, .null, some ⟨-32601, "Method not found"⟩⟩, ?_, rfl, rfl⟩
    simp [handleMCPRequest, h1, h2, h3, h4, h5, h6, h7, h8, sendError]
  · intro params uri hm hp hu hne
    refine ⟨.response ⟨"2.0", req.ID, .null, some ⟨-32602, "Invalid resource URI"⟩⟩, ?_, rfl, rfl⟩
    rcases hm with hm | hm
    · simp [handleMCPRequest, handleResourcesRead, hm, hp, hu, hne, assertMap, assertString,
        sendError]
    · simp [handleMCPRequest, handleResourcesSubscribe, hm, hp, hu, hne, assertMap, assertString,
        sendError]
  · intro params name hm hp hu hne
    refine ⟨.response ⟨"2.0", req.ID, .null, some ⟨-32602, "Unknown tool"⟩⟩, ?_, rfl, rfl⟩
    simp [handleMCPRequest, handleToolsCall, hm, hp, hu, hne, assertMap, assertString, sendError]

/-- C10 witness: `resources/subscribe` with uri `lazygit://unknown` gives
code -32602 and changes nothing. -/
theorem C10_protocol_errors_witness :
    ∃ l, handleMCPRequest
        (.ok ⟨"2.0", .number "3", "resources/subscribe", .obj [("uri", .str "lazygit://unknown")]⟩)
        fullState = some (fullState, [l]) ∧
      errorCode l = some (-32602) ∧ responseId l = some (.number "3") :=
  (C10_protocol_errors fullState
    ⟨"2.0", .number "3", "resources/subscribe", .obj [("uri", .str "lazygit://unknown")]⟩).2.1
    [("uri", .str "lazygit://unknown")] "lazygit://unknown" (Or.inr rfl) rfl rfl (by decide)

/-! ## C11 -/

theorem readMessageFile_tail (digest : String → String) (s : State) (raw : RawMessage)
    (hscope : InScope s raw) (hd : isDuplicate (hashString digest raw) s.messageQueue = false) :
    ∃ q, (readMessageFile digest (.parsed raw) s).1.messageQueue = q ++ [toMessage digest raw] := by
  rw [readMessageFile_accepted digest s raw hscope hd]
  by_cases hlen : (s.messageQueue ++ [toMessage digest raw]).length > 10
  · simp only [if_pos hlen]
    cases hq : s.messageQueue with
    | nil => rw [hq] at hlen; simp at hlen
    | cons m rest => exact ⟨rest, rfl⟩
  · simp only [if_neg hlen]
    exact ⟨s.messageQueue, rfl⟩

/-- C11: for every state and ingestion attempt, an accepted message (in scope,
key not queued) is put at the tail of the queue and the output is, in order,
the resources/updated notification for `lazygit://messages` exactly when the
subscription list is non-empty, then one notifications/message at level info
with text `New message from lazygit: ` followed by the comment; a rejected
attempt (read error, parse error, other project, duplicate) prints nothing and
leaves the state as it was. -/
theorem C11_ingestion_output (digest : String → String) (s : State) (input : FileRead) :
    (∀ raw, input = .parsed raw → InScope s raw →
        hashString digest raw ∉ s.messageQueue.map LazygitMessage.Hash →
        (∃ q, (readMessageFile digest input s).1.messageQueue = q ++ [toMessage digest raw]) ∧
        (readMessageFile digest input s).2 =
          (if s.subscribers = [] then [] else [updatedNotification]) ++
            [messageNotification ("New message from lazygit: " ++ raw.Comment)]) ∧
    ((input = .readError ∨ input = .parseError ∨
        ∃ raw, input = .parsed raw ∧
          ((raw.ProjectRoot ≠ "" ∧ raw.ProjectRoot ≠ s.currentProjectRoot) ∨
            hashString digest raw ∈ s.messageQueue.map LazygitMessage.Hash)) →
      readMessageFile digest input s = (s, [])) := by
  refine ⟨?_, ?_⟩
  · intro raw hin hscope hnew
    subst hin
    have hd : isDuplicate (hashString digest raw) s.messageQueue = false := by
      cases hc : isDuplicate (hashString digest raw) s.messageQueue with
      | false => rfl
      | true => exact absurd ((isDuplicate_iff _ _).mp hc) hnew
    refine ⟨readMessageFile_tail digest s raw hscope hd, ?_⟩
    rw [readMessageFile_accepted digest s raw hscope hd]
    cases hsub : s.subscribers with
    | nil => simp [sendNotification, hsub, messageNotification]
    | cons u rest => simp [sendNotification, hsub, messageNotification, updatedNotification]
  · rintro (h | h | ⟨raw, hin, h⟩)
    · rw [h]; rfl
    · rw [h]; rfl
    · subst hin
      apply readMessageFile_rejected digest s raw
      rcases h with ⟨h1, h2⟩ | h
      · left
        rintro (a | a)
        · exact h1 a
        · exact h2 a
      · right
        exact (isDuplicate_iff _ _).mpr h

/-- C11 witness: the example message arrives while one client is subscribed,
then arrives again. -/
theorem C11_ingestion_output_witness :
    (readMessageFile id (.parsed exampleMessage) subscribedState).2 =
      [updatedNotification, messageNotification "New message from lazygit: fix nil check"] ∧
    readMessageFile id (.parsed exampleMessage)
        (readMessageFile id (.parsed exampleMessage) subscribedState).1 =
      ((readMessageFile id (.parsed exampleMessage) subscribedState).1, []) :=
  ⟨((C11_ingestion_output id subscribedState (.parsed exampleMessage)).1 exampleMessage rfl
      (Or.inr rfl) (by decide)).2,
   (C11_ingestion_output id (readMessageFile id (.parsed exampleMessage) subscribedState).1
      (.parsed exampleMessage)).2 (Or.inr (Or.inr ⟨exampleMessage, rfl, Or.inr (by decide)⟩))⟩

/-! ## C12 -/

/-- The unsubscribe loop, started at index `pre.length` with `pre` free of
`uri`, removes the first entry equal to `uri` from the rest. -/
theorem unsubscribeLoop_eq (uri : String) (rest pre : List String) (h : uri ∉ pre) :
    unsubscribeLoop uri (pre ++ rest) pre.length rest = pre ++ rest.erase uri := by
  induction rest generalizing pre with
  | nil => simp [unsubscribeLoop]
  | cons sub rest ih =>
    by_cases hs : sub = uri
    · subst hs
      simp [unsubscribeLoop]
    · have hne : ¬ (sub == uri) = true := by simpa using hs
      have hpre : uri ∉ pre ++ [sub] := by
        simp only [List.mem_append, List.mem_singleton, not_or]
        exact ⟨h, fun e => hs e.symm⟩
      have := ih (pre ++ [sub]) hpre
      simp only [List.append_assoc, List.singleton_append, List.length_append,
        List.length_singleton] at this
      simp only [unsubscribeLoop, if_neg hs, this, List.erase_cons_tail hne]

theorem unsubscribeLoop_erase (uri : String) (subscribers : List String) :
    unsubscribeLoop uri subscribers 0 subscribers = subscribers.erase uri := by
  simpa using unsubscribeLoop_eq uri subscribers [] (by simp)

theorem handleMCPRequest_subscribe (s : State) (req : MCPRequest) (params : List (String × Json))
    (hm : req.Method = "resources/subscribe") (hp : req.Params = .obj params)
    (hu : mapIndex params "uri" = .str "lazygit://messages") :
    handleMCPRequest (.ok req) s =
      some (⟨s.messageQueue, s.subscribers ++ ["lazygit://messages"], s.currentProjectRoot,
        s.messageFile⟩, [successResponse req.ID]) := by
  simp [handleMCPRequest, handleResourcesSubscribe, hm, hp, hu, assertMap, assertString,
    sendResponse, successResponse]

theorem run_subscribe (digest : String → String) (req : MCPRequest)
    (params : List (String × Json))
    (hm : req.Method = "resources/subscribe") (hp : req.Params = .obj params)
    (hu : mapIndex params "uri" = .str "lazygit://messages") (k : Nat) (s : State) :
    ∃ out, run digest s (List.replicate k (Event.request (.ok req))) =
        some (⟨s.messageQueue, s.subscribers ++ List.replicate k "lazygit://messages",
          s.currentProjectRoot, s.messageFile⟩, out) ∧ out.length = k := by
  induction k generalizing s with
  | zero => exact ⟨[], by simp [run], rfl⟩
  | succ k ih =>
    obtain ⟨out, h1, h2⟩ := ih ⟨s.messageQueue, s.subscribers ++ ["lazygit://messages"],
      s.currentProjectRoot, s.messageFile⟩
    refine ⟨successResponse req.ID :: out, ?_, by simp [h2]⟩
    simp only [List.replicate_succ, run, step, handleMCPRequest_subscribe s req params hm hp hu,
      h1, List.singleton_append, List.append_assoc]

/-- C12: for every state and every request whose params hold a string uri,
`resources/subscribe` with uri `lazygit://messages` answers with success and
appends one entry without looking for an existing one, so k such requests add
k entries; `resources/unsubscribe` answers with success whatever the uri and
leaves the list with its first entry equal to uri removed (unchanged when
there is none); neither changes the queue, the root or the file. -/
theorem C12_subscriptions (digest : String → String) (s : State) (req : MCPRequest)
    (params : List (String × Json)) (uri : String)
    (hp : req.Params = .obj params) (hu : mapIndex params "uri" = .str uri) :
    (req.Method = "resources/subscribe" → uri = "lazygit://messages" →
      handleMCPRequest (.ok req) s =
        some (⟨s.messageQueue, s.subscribers ++ [uri], s.currentProjectRoot, s.messageFile⟩,
          [successResponse req.ID]) ∧
      ∀ k, ∃ out, run digest s (List.replicate k (Event.request (.ok req))) =
        some (⟨s.messageQueue, s.subscribers ++ List.replicate k uri, s.currentProjectRoot,
          s.messageFile⟩, out) ∧ out.length = k) ∧
    (req.Method = "resources/unsubscribe" →
      handleMCPRequest (.ok req) s =
        some (⟨s.messageQueue, s.subscribers.erase uri, s.currentProjectRoot, s.messageFile⟩,
          [successResponse req.ID]) ∧
      (uri ∉ s.subscribers → s.subscribers.erase uri = s.subscribers)) := by
  refine ⟨?_, ?_⟩
  · intro hm huri
    subst huri
    exact ⟨handleMCPRequest_subscribe s req params hm hp hu,
      fun k => run_subscribe digest req params hm hp hu k s⟩
  · intro hm
    refine ⟨?_, fun hnot => List.erase_of_not_mem hnot⟩
    simp [handleMCPRequest, handleResourcesUnsubscribe, hm, hp, hu, assertMap, assertString,
      sendResponse, successResponse, unsubscribeLoop_erase]

/-- C12 witness: two subscriptions, then an unsubscribe removes the first and
an unsubscribe of a uri that was never subscribed changes nothing. -/
theorem C12_subscriptions_witness :
    (∃ out, run id (initial "/repo" (.present true))
        (List.replicate 2 (Event.request
          (.ok (uriRequest (.number "1") "resources/subscribe" "lazygit://messages")))) =
        some (⟨[], ["lazygit://messages", "lazygit://messages"], "/repo", .present true⟩, out) ∧
      out.length = 2) ∧
    handleMCPRequest (.ok (uriRequest (.number "2") "resources/unsubscribe" "lazygit://messages"))
        ⟨[], ["lazygit://messages", "lazygit://messages"], "/repo", .present true⟩ =
      some (⟨[], ["lazygit://messages"], "/repo", .present true⟩, [successResponse (.number "2")]) ∧
    handleMCPRequest (.ok (uriRequest (.number "3") "resources/unsubscribe" "lazygit://other"))
        subscribedState =
      some (subscribedState, [successResponse (.number "3")]) :=
  ⟨((C12_subscriptions id (initial "/repo" (.present true))
      (uriRequest (.number "1") "resources/subscribe" "lazygit://messages")
      [("uri", .str "lazygit://messages")] "lazygit://messages" rfl rfl).1 rfl rfl).2 2,
   ((C12_subscriptions id ⟨[], ["lazygit://messages", "lazygit://messages"], "/repo", .present true⟩
      (uriRequest (.number "2") "resources/unsubscribe" "lazygit://messages")
      [("uri", .str "lazygit://messages")] "lazygit://messages" rfl rfl).2 rfl).1,
   ((C12_subscriptions id subscribedState
      (uriRequest (.number "3") "resources/unsubscribe" "lazygit://other")
      [("uri", .str "lazygit://other")] "lazygit://other" rfl rfl).2 rfl).1⟩

/-! ## C13 -/

/-- With no call of the watcher in between, the three statements of a drain
are the handler. -/
theorem interleavedDrain_atomic (digest : String → String) (kind : Drain) (req : MCPRequest)
    (s : State) (h : IsDrainOf kind req) :
    handleMCPRequest (.ok req) s =
      some ((interleavedDrain digest kind req.ID s ⟨[], [], []⟩).final,
        (interleavedDrain digest kind req.ID s ⟨[], [], []⟩).out) ∧
    (interleavedDrain digest kind req.ID s ⟨[], [], []⟩).text = referenceFormat s.messageQueue ∧
    (interleavedDrain digest kind req.ID s ⟨[], [], []⟩).final.messageQueue = [] := by
  obtain ⟨q, subs, root, file⟩ := s
  cases kind with
  | resourcesRead =>
    rw [handleMCPRequest_read req _ h]
    cases q with
    | nil => exact ⟨rfl, rfl, rfl⟩
    | cons m rest =>
      have hne : m :: rest ≠ [] := by simp
      simp [interleavedDrain, watcherCalls, drainFormat, drainRespond, drainClear, drained,
        finalMessage_eq_referenceFormat _ hne]
  | toolsCall =>
    rw [handleMCPRequest_call req _ h]
    cases q with
    | nil => exact ⟨rfl, rfl, rfl⟩
    | cons m rest =>
      have hne : m :: rest ≠ [] := by simp
      simp [interleavedDrain, watcherCalls, drainFormat, drainRespond, drainClear, drained,
        finalMessage_eq_referenceFormat _ hne]

theorem interleavedDrain_before (digest : String → String) (kind : Drain) (id : Json)
    (s : State) (before : List FileRead) :
    interleavedDrain digest kind id s ⟨before, [], []⟩ =
      ⟨(interleavedDrain digest kind id (watcherCalls digest s before).1 ⟨[], [], []⟩).text,
        (watcherCalls digest s before).2 ++
          (interleavedDrain digest kind id (watcherCalls digest s before).1 ⟨[], [], []⟩).out,
        (interleavedDrain digest kind id (watcherCalls digest s before).1 ⟨[], [], []⟩).final⟩ := by
  simp [interleavedDrain, watcherCalls]

theorem readMessageFile_lateArrival (digest : String → String)
    (hne : hashString digest (numbered "1") ≠ hashString digest (numbered "0")) :
    readMessageFile digest (.parsed (numbered "1")) (oneQueued digest) =
      (⟨[toMessage digest (numbered "0"), toMessage digest (numbered "1")], [], "/repo",
          .present true⟩,
        [messageNotification "New message from lazygit: comment 1"]) := by
  have hd : isDuplicate (hashString digest (numbered "1")) (oneQueued digest).messageQueue =
      false := by
    have h2 : ¬ hashString digest (numbered "0") = hashString digest (numbered "1") :=
      fun e => hne e.symm
    simp [oneQueued, isDuplicate, toMessage, h2]
  rw [readMessageFile_accepted digest (oneQueued digest) (numbered "1") (Or.inl rfl) hd]
  rfl

/-- C13 (amended): with respect to calls of `readMessageFile` that do not fall
between its format and its clear, the drain is one step. Under every
interleaving in which the watcher's calls all come before the format
statement, the drain is the handler run on the state those calls left: its
text is the reference format of every message queued at that moment, in order,
the queue is empty when it returns, and a message accepted after it is queued
for the next drain. -/
theorem C13_drain_without_overlap (digest : String → String) (kind : Drain) (req : MCPRequest)
    (s : State) (before : List FileRead) (hreq : IsDrainOf kind req) :
    ∃ l,
      handleMCPRequest (.ok req) (watcherCalls digest s before).1 =
        some ((interleavedDrain digest kind req.ID s ⟨before, [], []⟩).final, [l]) ∧
      (interleavedDrain digest kind req.ID s ⟨before, [], []⟩).out =
        (watcherCalls digest s before).2 ++ [l] ∧
      contentText l = some (interleavedDrain digest kind req.ID s ⟨before, [], []⟩).text ∧
      (interleavedDrain digest kind req.ID s ⟨before, [], []⟩).text =
        referenceFormat (watcherCalls digest s before).1.messageQueue ∧
      (interleavedDrain digest kind req.ID s ⟨before, [], []⟩).final.messageQueue = [] ∧
      ∀ raw, InScope (interleavedDrain digest kind req.ID s ⟨before, [], []⟩).final raw →
        (readMessageFile digest (.parsed raw)
          (interleavedDrain digest kind req.ID s ⟨before, [], []⟩).final).1.messageQueue =
            [toMessage digest raw] := by
  rw [interleavedDrain_before]
  obtain ⟨hrun, htext, hfinal⟩ :=
    interleavedDrain_atomic digest kind req (watcherCalls digest s before).1 hreq
  have hor : IsMessagesRead req ∨ IsCheckCall req := by
    cases kind with
    | resourcesRead => exact Or.inl hreq
    | toolsCall => exact Or.inr hreq
  obtain ⟨l, h1, h2, _⟩ := drain_text req (watcherCalls digest s before).1 hor
  rw [h1] at hrun
  simp only [Option.some.injEq, Prod.mk.injEq] at hrun
  refine ⟨l, ?_, ?_, ?_, htext, hfinal, ?_⟩
  · rw [h1, hrun.1]
  · simp only [← hrun.2]
  · simp only [h2, htext]
  · intro raw hscope
    simp only at hscope ⊢
    have hd : isDuplicate (hashString digest raw)
        (interleavedDrain digest kind req.ID (watcherCalls digest s before).1
          ⟨[], [], []⟩).final.messageQueue = false := by
      rw [hfinal]; rfl
    rw [readMessageFile_accepted digest _ raw hscope hd, hfinal]
    rfl

/-- C13 witness: two messages arrive, then `tools/call` drains, then a third
message arrives. -/
theorem C13_drain_without_overlap_witness :
    ∃ l,
      handleMCPRequest (.ok (checkRequest (.number "1")))
          (watcherCalls id (initial "/repo" (.present true))
            [.parsed (numbered "0"), .parsed (numbered "1")]).1 =
        some ((interleavedDrain id .toolsCall (.number "1") (initial "/repo" (.present true))
          ⟨[.parsed (numbered "0"), .parsed (numbered "1")], [], []⟩).final, [l]) ∧
      contentText l = some (referenceFormat [toMessage id (numbered "0"),
        toMessage id (numbered "1")]) ∧
      (readMessageFile id (.parsed (numbered "2"))
        (interleavedDrain id .toolsCall (.number "1") (initial "/repo" (.present true))
          ⟨[.parsed (numbered "0"), .parsed (numbered "1")], [], []⟩).final).1.messageQueue =
        [toMessage id (numbered "2")] := by
  obtain ⟨l, h1, _, h3, h4, _, h6⟩ := C13_drain_without_overlap id .toolsCall
    (checkRequest (.number "1")) (initial "/repo" (.present true))
    [.parsed (numbered "0"), .parsed (numbered "1")] (isCheckCall_checkRequest _)
  refine ⟨l, h1, ?_, h6 (numbered "2") (Or.inl rfl)⟩
  rw [h3, h4]
  rfl

/-- C13 as stated fails: one message is queued, the handler formats and
responds, the watcher then accepts and announces a second message, and the
handler clears the queue. The second message is in the queue before the clear,
is not in the text of this drain, and the next drain reports no message. This
holds for both handlers and for every digest that tells the two keys apart. -/
theorem C13_counterexample :
    hashString id (numbered "1") ≠ hashString id (numbered "0") ∧
    ∀ digest : String → String,
      hashString digest (numbered "1") ≠ hashString digest (numbered "0") →
      readMessageFile digest (.parsed (numbered "1")) (oneQueued digest) =
        (⟨[toMessage digest (numbered "0"), toMessage digest (numbered "1")], [], "/repo",
            .present true⟩,
          [messageNotification "New message from lazygit: comment 1"]) ∧
      ∀ kind : Drain,
        (interleavedDrain digest kind (.number "1") (oneQueued digest) lateArrival).text =
          "Message 1:\nFile: f0.go\nComment: comment 0\nTime: 2024-01-01T00:00:00Z\n\nPlease improve this code." ∧
        (interleavedDrain digest kind (.number "1") (oneQueued digest) lateArrival).out =
          drainRespond kind (.number "1")
            "Message 1:\nFile: f0.go\nComment: comment 0\nTime: 2024-01-01T00:00:00Z\n\nPlease improve this code." ++
          [messageNotification "New message from lazygit: comment 1"] ∧
        (interleavedDrain digest kind (.number "1") (oneQueued digest) lateArrival).final =
          ⟨[], [], "/repo", .absent⟩ ∧
        (interleavedDrain digest kind (.number "2")
          (interleavedDrain digest kind (.number "1") (oneQueued digest) lateArrival).final
          ⟨[], [], []⟩).text = "No new messages from lazygit" := by
  refine ⟨by decide, ?_⟩
  intro digest hne
  have hlate := readMessageFile_lateArrival digest hne
  refine ⟨hlate, ?_⟩
  intro kind
  have hfmt : drainFormat (oneQueued digest) =
      ("Message 1:\nFile: f0.go\nComment: comment 0\nTime: 2024-01-01T00:00:00Z\n\nPlease improve this code.",
        true) := rfl
  have htrace : interleavedDrain digest kind (.number "1") (oneQueued digest) lateArrival =
      ⟨"Message 1:\nFile: f0.go\nComment: comment 0\nTime: 2024-01-01T00:00:00Z\n\nPlease improve this code.",
        drainRespond kind (.number "1")
          "Message 1:\nFile: f0.go\nComment: comment 0\nTime: 2024-01-01T00:00:00Z\n\nPlease improve this code." ++
        [messageNotification "New message from lazygit: comment 1"],
        ⟨[], [], "/repo", .absent⟩⟩ := by
    simp only [interleavedDrain, lateArrival, watcherCalls, hfmt, hlate, List.nil_append,
      List.append_nil, if_true]
    rfl
  rw [htrace]
  exact ⟨rfl, rfl, rfl, rfl⟩

end LazygitMcp
